import Mathlib

/-!
# Verification of the address-library dump tool (`src/main.cpp`)

Shallow embedding of the binary decoder and report emitter.  Machine
integers are modelled as `Nat` with explicit reduction modulo `2^32` /
`2^64` where the C++ code performs fixed-width unsigned arithmetic.
Fallible operations return `Except Err`.

The byte cursor (`binary_io::span_istream`) is an external collaborator;
its contract is taken from the specification (§4.1): bounds-checked
little-endian reads that fail with `OutOfBounds` when insufficient bytes
remain, and a relative seek that fails when it would leave `[0, length]`.
-/

namespace AddressLib

/-- `2^64`, the modulus of `std::uint64_t` arithmetic. -/
def M64 : Nat := 2 ^ 64

/-- `2^32`, the modulus of 32-bit wire integers. -/
def M32 : Nat := 2 ^ 32

/-- Interpret a raw 32-bit value as the signed `std::int32_t` it denotes. -/
def toInt32 (x : Nat) : Int :=
  if x < 2 ^ 31 then (x : Int) else (x : Int) - (M32 : Int)

/-- Model of the C++ conversion `std::int32_t → std::uint64_t`
(sign-extend, then reinterpret modulo `2^64`), applied when the
`pointer_size` header field participates in `uint64` arithmetic. -/
def sext64 (x : Nat) : Nat :=
  if x < 2 ^ 31 then x else x + (M64 - M32)

/-- Error kinds raised while decoding.

* `invalidFormat f` — `raise_error("invalid header version ({})", format)`
  at `main.cpp:68`; carries the signed value of the rejected field.
* `outOfBounds` — a cursor read or seek exceeded the buffer extent
  (raised by the external byte cursor).
* `unhandledTag site` — `raise_error("unhandled type")`; `site` is the
  source line of the raise (123 for the id nibble, 154 for the offset
  sub-mode).
* `divisionByZeroUB` — marks that the source would execute
  `prevOffset / header.pointer_size` with a zero divisor, which is
  undefined behaviour in C++ (`main.cpp:126` has no guard); the model
  makes the undefinedness explicit instead of inventing a result.
* `lengthError` — `std::vector` construction with a negative
  `address_count` converted to `size_t` throws `std::length_error`
  (`main.cpp:85`). -/
inductive Err where
  | invalidFormat (format : Int)
  | outOfBounds
  | unhandledTag (site : Nat)
  | divisionByZeroUB
  | lengthError
  deriving DecidableEq, Repr

/-- The byte cursor: an immutable byte buffer plus a read position.
Bytes are `Nat`s below 256. -/
structure Stream where
  data : List Nat
  pos : Nat
  deriving DecidableEq, Repr

/-- Modelled from the spec (§4.1, external collaborator
`binary_io::span_istream`): read `n` raw bytes, advancing the position;
fail with `OutOfBounds` when fewer than `n` bytes remain.  The read is
atomic: on failure the cursor is unchanged (no partial value escapes). -/
def readBytes (s : Stream) (n : Nat) : Except Err (List Nat × Stream) :=
  if s.pos + n ≤ s.data.length then
    .ok ((s.data.drop s.pos).take n, { s with pos := s.pos + n })
  else
    .error .outOfBounds

/-- Little-endian value of a byte list (first byte least significant). -/
def leVal (bs : List Nat) : Nat :=
  bs.foldr (fun b acc => b + 256 * acc) 0

/-- Read one little-endian unsigned integer of `width` bytes. -/
def readUInt (s : Stream) (width : Nat) : Except Err (Nat × Stream) := do
  let (bs, s') ← readBytes s width
  .ok (leVal bs, s')

/-- Modelled from the spec (§4.1): `seek_relative(delta)` moves the
position by `delta` bytes, failing with `OutOfBounds` when the target
leaves `[0, length]`. -/
def seek_relative (s : Stream) (delta : Int) : Except Err Stream :=
  if 0 ≤ (s.pos : Int) + delta ∧ (s.pos : Int) + delta ≤ (s.data.length : Int) then
    .ok { s with pos := ((s.pos : Int) + delta).toNat }
  else
    .error .outOfBounds

/-- `header_t` (`main.cpp:49-55`).  Fields hold the raw (unsigned)
32-bit wire values; signedness is applied at use sites. -/
structure header_t where
  format : Nat
  version : Nat × Nat × Nat × Nat
  pointer_size : Nat
  address_count : Nat
  deriving DecidableEq, Repr

/-- `read_header` (`main.cpp:57-79`): format tag (must be 1 or 2, which
as `int32_t` coincides with the raw value being 1 or 2), four version
words, a length-prefixed name that is skipped, then `pointer_size` and
`address_count`. -/
def read_header (s : Stream) : Except Err (header_t × Stream) := do
  let (format, s) ← readUInt s 4
  if format = 1 ∨ format = 2 then
    let (v0, s) ← readUInt s 4
    let (v1, s) ← readUInt s 4
    let (v2, s) ← readUInt s 4
    let (v3, s) ← readUInt s 4
    let (nameLen, s) ← readUInt s 4
    let s ← seek_relative s (toInt32 nameLen)
    let (pointer_size, s) ← readUInt s 4
    let (address_count, s) ← readUInt s 4
    .ok (⟨format, (v0, v1, v2, v3), pointer_size, address_count⟩, s)
  else
    .error (.invalidFormat (toInt32 format))

/-- The id switch (`main.cpp:97-124`).  `prevID - value` is `uint64`
subtraction, i.e. `(prevID + 2^64 - value) % 2^64`. -/
def read_id (lo : Nat) (prevID : Nat) (s : Stream) : Except Err (Nat × Stream) :=
  match lo with
  | 0 => readUInt s 8
  | 1 => .ok ((prevID + 1) % M64, s)
  | 2 => do
      let (v, s) ← readUInt s 1
      .ok ((prevID + v) % M64, s)
  | 3 => do
      let (v, s) ← readUInt s 1
      .ok ((prevID + M64 - v) % M64, s)
  | 4 => do
      let (v, s) ← readUInt s 2
      .ok ((prevID + v) % M64, s)
  | 5 => do
      let (v, s) ← readUInt s 2
      .ok ((prevID + M64 - v) % M64, s)
  | 6 => readUInt s 2
  | 7 => readUInt s 4
  | _ => .error (.unhandledTag 123)

/-- The offset switch (`main.cpp:128-155`), acting on the pre-adjusted
base `tmp`.  `ps64` is `pointer_size` converted to `uint64`; it is used
only by the final scaling step, applied afterwards in `read_offset`. -/
def offset_switch (hi : Nat) (tmp : Nat) (s : Stream) : Except Err (Nat × Stream) :=
  match hi % 8 with
  | 0 => readUInt s 8
  | 1 => .ok ((tmp + 1) % M64, s)
  | 2 => do
      let (v, s) ← readUInt s 1
      .ok ((tmp + v) % M64, s)
  | 3 => do
      let (v, s) ← readUInt s 1
      .ok ((tmp + M64 - v) % M64, s)
  | 4 => do
      let (v, s) ← readUInt s 2
      .ok ((tmp + v) % M64, s)
  | 5 => do
      let (v, s) ← readUInt s 2
      .ok ((tmp + M64 - v) % M64, s)
  | 6 => readUInt s 2
  | 7 => readUInt s 4
  | _ => .error (.unhandledTag 154)

/-- Offset decoding for one record (`main.cpp:126-159`): compute the
pre-adjusted base `tmp` (dividing by `pointer_size` when bit 3 of the
high nibble is set — undefined behaviour when the divisor is zero,
surfaced as `divisionByZeroUB`), dispatch on `hi & 7`, then multiply by
`pointer_size` when bit 3 was set. -/
def read_offset (ps64 : Nat) (hi : Nat) (prevOffset : Nat) (s : Stream) :
    Except Err (Nat × Stream) := do
  if hi / 8 % 2 = 1 ∧ ps64 = 0 then
    .error .divisionByZeroUB
  else
    let (offset, s) ←
      offset_switch hi (if hi / 8 % 2 = 1 then prevOffset / ps64 else prevOffset) s
    if hi / 8 % 2 = 1 then
      .ok (offset * ps64 % M64, s)
    else
      .ok (offset, s)

/-- One iteration of the record loop (`main.cpp:92-164`): read the tag
byte, split the nibbles, decode id then offset. -/
def readRecord (ps64 : Nat) (prevID prevOffset : Nat) (s : Stream) :
    Except Err ((Nat × Nat) × Stream) := do
  let (type, s) ← readUInt s 1
  let lo := type % 16
  let hi := type / 16
  let (id, s) ← read_id lo prevID s
  let (offset, s) ← read_offset ps64 hi prevOffset s
  .ok ((id, offset), s)

/-- The record loop (`main.cpp:92-165`), threading `prevID`/`prevOffset`
through `n` records. -/
def readRecords (ps64 : Nat) : Nat → Nat → Nat → Stream →
    Except Err (List (Nat × Nat) × Stream)
  | 0, _, _, s => .ok ([], s)
  | n + 1, prevID, prevOffset, s => do
    let ((id, offset), s) ← readRecord ps64 prevID prevOffset s
    let (rest, s) ← readRecords ps64 n id offset s
    .ok ((id, offset) :: rest, s)

/-- `read_file` (`main.cpp:81-168`): parse the header, construct the
mapping vector (throwing `std::length_error` when the signed
`address_count` is negative), then decode `address_count` records with
the state seeded at 0. -/
def read_file (s : Stream) : Except Err (List (Nat × Nat)) := do
  let (header, s) ← read_header s
  if header.address_count < 2 ^ 31 then
    let (mappings, _) ← readRecords (sext64 header.pointer_size)
        header.address_count 0 0 s
    .ok mappings
  else
    .error .lengthError

/-- Ordering used by the sort (`main.cpp:178-179` compares `first`). -/
def mapLe (a b : Nat × Nat) : Prop := a.1 ≤ b.1

instance : DecidableRel mapLe := fun a b => inferInstanceAs (Decidable (a.1 ≤ b.1))

instance : IsTotal (Nat × Nat) mapLe := ⟨fun a b => Nat.le_total a.1 b.1⟩

instance : IsTrans (Nat × Nat) mapLe := ⟨fun _ _ _ h h' => Nat.le_trans h h'⟩

/-- `std::sort` by id (`main.cpp:175-180`): an unstable sort whose
result is some id-ordered permutation; ties keep an unspecified order,
so any sorted permutation is a faithful model. -/
def sortMappings (ms : List (Nat × Nat)) : List (Nat × Nat) :=
  ms.insertionSort mapLe

/-- Decimal rendering of an id (`fmt::to_string`). -/
def decStr (n : Nat) : String := toString n

/-- Number of decimal digits (`fmt::to_string(...).length()`). -/
def decLen (n : Nat) : Nat := (decStr n).data.length

/-- Uppercase hexadecimal digit for a value below 16. -/
def hexDigitU (n : Nat) : Char :=
  if n < 10 then Char.ofNat (48 + n) else Char.ofNat (55 + n)

/-- Digit accumulator for `hexDigitsU`; `fuel` bounds the recursion
depth (any `fuel ≥ n` suffices, since `n` has at most `n + 1` digits). -/
def hexDigitsUAux : Nat → Nat → List Char → List Char
  | 0, n, acc => hexDigitU (n % 16) :: acc
  | fuel + 1, n, acc =>
      if n < 16 then hexDigitU n :: acc
      else hexDigitsUAux fuel (n / 16) (hexDigitU (n % 16) :: acc)

/-- Uppercase hexadecimal digits of `n`, most significant first
(`fmt` `{:X}` rendering, `"0"` for zero). -/
def hexDigitsU (n : Nat) : List Char :=
  hexDigitsUAux n n []

/-- Left-pad a character list with `c` to width `w`. -/
def padLeft (c : Char) (w : Nat) (s : List Char) : List Char :=
  List.replicate (w - s.length) c ++ s

/-- One output line (`main.cpp:184`, format string `"{1: >{0}}\t{2:07X}"`):
the decimal id right-justified with spaces to width `w`, a tab, and the
offset in uppercase hexadecimal zero-padded to at least 7 digits. -/
def formatLine (w : Nat) (id offset : Nat) : String :=
  ⟨padLeft ' ' w (decStr id).data ++ '\t' :: padLeft '0' 7 (hexDigitsU offset)⟩

/-- The field width chosen at `main.cpp:182`:
`mappings.empty() ? 0 : fmt::to_string(mappings.back().first).length()`. -/
def dumpWidth (sorted : List (Nat × Nat)) : Nat :=
  match sorted.getLast? with
  | none => 0
  | some m => decLen m.1

/-- `dump_mappings` (`main.cpp:170-186`): decode, sort by id, take the
field width from the decimal length of the last (largest) sorted id
(0 when empty), and emit one line per mapping in sorted order. -/
def dump_mappings (s : Stream) : Except Err (List String) := do
  let mappings ← read_file s
  let sorted := sortMappings mappings
  .ok (sorted.map fun m => formatLine (dumpWidth sorted) m.1 m.2)

/-- `EXIT_FAILURE`. -/
def EXIT_FAILURE : Nat := 1

/-- Observable outcome of one process run: exit status, lines printed to
standard output, and lines written to the report file. -/
structure RunResult where
  exitCode : Nat
  stdoutLines : List String
  outFileLines : List String
  deriving DecidableEq, Repr

/-- Message carried by each exception, as caught at `main.cpp:211-213`.
`raise_error` prefixes the originating source location
(`"{file}({line}): {message}"`, `main.cpp:36-40`); the two library
exceptions (cursor bounds, vector length) carry library-defined text,
modelled here by their kind names. -/
def errorMessage : Err → String
  | .invalidFormat f => "main.cpp(68): invalid header version (" ++ toString f ++ ")"
  | .outOfBounds => "OutOfBounds"
  | .unhandledTag site => "main.cpp(" ++ toString site ++ "): unhandled type"
  | .divisionByZeroUB => "undefined behaviour"
  | .lengthError => "length_error"

/-- `wmain` (`main.cpp:203-216`): with exactly one path argument run
`do_main`, otherwise raise the usage error (`main.cpp:209`); any caught
exception prints its message to standard output; the return value is
unconditionally `EXIT_FAILURE`.  A run that reaches the unguarded
division by zero has undefined behaviour and yields no modelled result
(`none`). -/
def wmain (argc : Nat) (input : Stream) : Option RunResult :=
  if argc = 2 then
    match dump_mappings input with
    | .ok lines => some ⟨EXIT_FAILURE, [], lines⟩
    | .error .divisionByZeroUB => none
    | .error e => some ⟨EXIT_FAILURE, [errorMessage e], []⟩
  else
    some ⟨EXIT_FAILURE,
      ["main.cpp(209): expected only 1 argument (the file path): got "
        ++ toString ((argc : Int) - 1)], []⟩

/-! ## Specification-side definitions

These re-state parts of the spec in its own words, to be compared with
the definitions translated from the source. -/

/-- All buffer bytes are genuine bytes (below 256); true of every real
input, where the buffer is a memory-mapped file. -/
def Stream.WF (s : Stream) : Prop := ∀ b ∈ s.data, b < 256

instance (s : Stream) : Decidable s.WF := by
  unfold Stream.WF; infer_instance

/-- The id-mode table exactly as §4.3 step 2 states it; the subtraction
modes are true integer subtraction wrapped modulo `2^64`. -/
def specIdDecode (lo : Nat) (prevID : Nat) (s : Stream) : Except Err (Nat × Stream) :=
  match lo with
  | 0 => readUInt s 8
  | 1 => .ok ((prevID + 1) % M64, s)
  | 2 => do
      let (v, s) ← readUInt s 1
      .ok ((prevID + v) % M64, s)
  | 3 => do
      let (v, s) ← readUInt s 1
      .ok ((((prevID : Int) - (v : Int)) % (M64 : Int)).toNat, s)
  | 4 => do
      let (v, s) ← readUInt s 2
      .ok ((prevID + v) % M64, s)
  | 5 => do
      let (v, s) ← readUInt s 2
      .ok ((((prevID : Int) - (v : Int)) % (M64 : Int)).toNat, s)
  | 6 => readUInt s 2
  | 7 => readUInt s 4
  | _ => .error (.unhandledTag 123)

/-- Maximum id occurring in a mapping list (0 when empty). -/
def maxId (ms : List (Nat × Nat)) : Nat :=
  ms.foldr (fun m acc => max m.1 acc) 0

/-- The report emitter as §4.5 states it, applied to the already sorted
sequence: width is the decimal digit length of the maximum id present
(0 if the sequence is empty). -/
def specEmit (ms : List (Nat × Nat)) : List String :=
  let w := if ms.isEmpty then 0 else decLen (maxId ms)
  ms.map fun m => formatLine w m.1 m.2

/-- Payload bytes demanded by a mode nibble (identical tables for the id
modes and the offset sub-modes). -/
def modeBytes : Nat → Nat
  | 0 => 8
  | 1 => 0
  | 2 => 1
  | 3 => 1
  | 4 => 2
  | 5 => 2
  | 6 => 2
  | 7 => 4
  | _ => 0

/-- Total bytes one record with tag byte `tag` requires: the tag itself
plus the payloads selected by its two nibbles. -/
def recordBytes (tag : Nat) : Nat :=
  1 + modeBytes (tag % 16) + modeBytes (tag / 16 % 8)

/-! ## Cursor lemmas -/

theorem readUInt_oob (s : Stream) (n : Nat) (h : s.data.length < s.pos + n) :
    readUInt s n = .error .outOfBounds := by
  simp only [readUInt, readBytes, if_neg (by omega : ¬s.pos + n ≤ s.data.length)]
  rfl

theorem readUInt_ok (s : Stream) (n : Nat) (h : s.pos + n ≤ s.data.length) :
    readUInt s n = .ok (leVal ((s.data.drop s.pos).take n), ⟨s.data, s.pos + n⟩) := by
  simp only [readUInt, readBytes, if_pos h]
  rfl

theorem take_one_drop (l : List Nat) (p : Nat) (h : p < l.length) :
    (l.drop p).take 1 = [l.getD p 0] := by
  rw [List.drop_eq_getElem_cons h, List.take_succ_cons, List.take_zero,
    List.getD_eq_getElem l 0 h]

theorem readUInt_one (s : Stream) (h : s.pos < s.data.length) :
    readUInt s 1 = .ok (s.data.getD s.pos 0, ⟨s.data, s.pos + 1⟩) := by
  rw [readUInt_ok s 1 (by omega), take_one_drop s.data s.pos h]
  simp [leVal]

theorem leVal_lt (bs : List Nat) (h : ∀ b ∈ bs, b < 256) :
    leVal bs < 256 ^ bs.length := by
  induction bs with
  | nil => simp [leVal]
  | cons b t ih =>
      have hb : b < 256 := h b (by simp)
      have ht : leVal t < 256 ^ t.length := ih fun x hx => h x (by simp [hx])
      simp only [leVal, List.foldr_cons, List.length_cons] at *
      calc b + 256 * List.foldr (fun b acc => b + 256 * acc) 0 t
          ≤ 255 + 256 * (256 ^ t.length - 1) := by
            have : List.foldr (fun b acc => b + 256 * acc) 0 t ≤ 256 ^ t.length - 1 := by
              omega
            omega
        _ < 256 ^ (t.length + 1) := by
            rw [pow_succ]
            have : 1 ≤ 256 ^ t.length := Nat.one_le_pow _ _ (by omega)
            omega

theorem readBytes_wf (s : Stream) (n : Nat) (bs : List Nat) (s' : Stream)
    (hwf : s.WF) (h : readBytes s n = .ok (bs, s')) : ∀ b ∈ bs, b < 256 := by
  unfold readBytes at h
  split at h
  · cases h
    intro b hb
    exact hwf b (List.mem_of_mem_drop (List.mem_of_mem_take hb))
  · cases h

theorem readBytes_length (s : Stream) (n : Nat) (bs : List Nat) (s' : Stream)
    (h : readBytes s n = .ok (bs, s')) : bs.length = n := by
  unfold readBytes at h
  split at h
  next hle =>
    cases h
    simp
    omega
  · cases h

theorem readUInt_lt (s : Stream) (n v : Nat) (s' : Stream)
    (hwf : s.WF) (h : readUInt s n = .ok (v, s')) : v < 256 ^ n := by
  unfold readUInt at h
  cases hb : readBytes s n with
  | error e =>
      rw [hb] at h
      simp only [bind, Except.bind] at h
      exact Except.noConfusion h
  | ok p =>
      obtain ⟨bs, s''⟩ := p
      rw [hb] at h
      simp only [bind, Except.bind, Except.ok.injEq, Prod.mk.injEq] at h
      rw [← h.1, ← readBytes_length s n bs s'' hb]
      exact leVal_lt bs (readBytes_wf s n bs s'' hwf hb)

theorem wrap_sub_eq (p v : Nat) (h : v < M64) :
    (p + M64 - v) % M64 = (((p : Int) - (v : Int)) % (M64 : Int)).toNat := by
  simp only [M64] at *
  omega

theorem read_id_sub_branch (s : Stream) (n prevID : Nat) (hwf : s.WF) (hn : 256 ^ n ≤ M64) :
    (do
      let (v, s') ← readUInt s n
      .ok ((prevID + M64 - v) % M64, s') : Except Err (Nat × Stream)) =
    (do
      let (v, s') ← readUInt s n
      .ok ((((prevID : Int) - (v : Int)) % (M64 : Int)).toNat, s')) := by
  cases hu : readUInt s n with
  | error e => simp only [hu, bind, Except.bind]
  | ok p =>
      obtain ⟨v, s'⟩ := p
      simp only [hu, bind, Except.bind, Except.ok.injEq, Prod.mk.injEq]
      exact ⟨wrap_sub_eq prevID v (lt_of_lt_of_le (readUInt_lt s n v s' hwf hu) hn), trivial⟩

/-! ## C1: the id mode table -/

/-- **C1.** For every record, the id is decoded from the low nibble of
the tag byte exactly per the mode table of §4.3: `lo=0` reads an
absolute little-endian 64-bit id; `lo=1` gives `prev_id + 1`; `lo=2/3`
add/subtract a read unsigned 8-bit value; `lo=4/5` add/subtract a read
unsigned 16-bit value; `lo=6/7` read an absolute unsigned 16/32-bit id;
`lo` in 8–15 fails with `UnhandledTag`.  The subtraction modes wrap
modulo `2^64` on underflow (stated via integer subtraction reduced
`% 2^64` in `specIdDecode`).  In particular, with `prev_id = 100`:
`lo=1` yields 101, `lo=2` with byte 5 yields 105, `lo=3` with byte 5
yields 95, and `lo=3` with byte 1 from `prev_id = 0` wraps to
`2^64 - 1`. -/
theorem read_id_matches_mode_table :
    (∀ lo prevID (s : Stream), s.WF → read_id lo prevID s = specIdDecode lo prevID s) ∧
    (∀ s, read_id 1 100 s = .ok (101, s)) ∧
    (read_id 2 100 ⟨[5], 0⟩ = .ok (105, ⟨[5], 1⟩)) ∧
    (read_id 3 100 ⟨[5], 0⟩ = .ok (95, ⟨[5], 1⟩)) ∧
    (read_id 3 0 ⟨[1], 0⟩ = .ok (M64 - 1, ⟨[1], 1⟩)) ∧
    (∀ prevID s, read_id 9 prevID s = .error (.unhandledTag 123)) := by
  refine ⟨?_, fun s => rfl, rfl, rfl, rfl, fun prevID s => rfl⟩
  intro lo prevID s hwf
  match lo with
  | 0 => rfl
  | 1 => rfl
  | 2 => rfl
  | 3 =>
      simp only [read_id, specIdDecode]
      exact read_id_sub_branch s 1 prevID hwf (by norm_num [M64])
  | 4 => rfl
  | 5 =>
      simp only [read_id, specIdDecode]
      exact read_id_sub_branch s 2 prevID hwf (by norm_num [M64])
  | 6 => rfl
  | 7 => rfl
  | (n + 8) => rfl

/-- Witness for C1 at a concrete input: the byte stream `[5]` is
well-formed and the table equation holds there for `lo = 3`,
`prev_id = 100`. -/
theorem read_id_matches_mode_table_witness :
    Stream.WF ⟨[5], 0⟩ ∧ read_id 3 100 ⟨[5], 0⟩ = specIdDecode 3 100 ⟨[5], 0⟩ :=
  ⟨by decide, read_id_matches_mode_table.1 3 100 ⟨[5], 0⟩ (by decide)⟩

/-! ## C2: pointer scaling -/

/-- **C2.** Whenever bit 3 of the high nibble is set (and the divisor is
nonzero, so the division is defined), the offset computation is exactly:
pre-adjust the base to `prev_offset / pointer_size` before the sub-mode
dispatch, run the sub-mode switch on that base, and multiply whatever
value the sub-mode produced — any of 0–7, the absolute modes included —
by `pointer_size` (in `uint64` arithmetic).  In particular, with
`prev_offset = 16`, `pointer_size = 4`, bit 3 set and `hi & 7 = 1`, the
emitted offset is `(16/4 + 1) * 4 = 20`; and the absolute 16-bit
sub-mode (`hi = 14`) is scaled as well. -/
theorem scaled_offset_uniform :
    (∀ ps64 hi prevOffset : Nat, ∀ s : Stream, hi / 8 % 2 = 1 → ps64 ≠ 0 →
      read_offset ps64 hi prevOffset s =
        (offset_switch hi (prevOffset / ps64) s).map fun vs => (vs.1 * ps64 % M64, vs.2)) ∧
    (read_offset 4 9 16 ⟨[], 0⟩ = .ok (20, ⟨[], 0⟩)) ∧
    (read_offset 4 14 0 ⟨[2, 1], 0⟩ = .ok ((2 + 256 * 1) * 4, ⟨[2, 1], 2⟩)) := by
  refine ⟨?_, rfl, rfl⟩
  intro ps64 hi prevOffset s hbit hps
  have hcond : ¬(hi / 8 % 2 = 1 ∧ ps64 = 0) := fun h => hps h.2
  unfold read_offset
  rw [if_neg hcond, if_pos hbit]
  cases ho : offset_switch hi (prevOffset / ps64) s with
  | error e => simp only [ho, bind, Except.bind, Except.map]
  | ok p =>
      obtain ⟨v, s'⟩ := p
      simp only [ho, bind, Except.bind, Except.map]
      rw [if_pos hbit]

/-- Witness for C2 at a concrete input: `pointer_size = 4`, `hi = 9`
(bit 3 set, sub-mode 1), `prev_offset = 16`. -/
theorem scaled_offset_uniform_witness :
    (9 : Nat) / 8 % 2 = 1 ∧ (4 : Nat) ≠ 0 ∧
      read_offset 4 9 16 ⟨[], 0⟩ =
        (offset_switch 9 (16 / 4) ⟨[], 0⟩).map fun vs => (vs.1 * 4 % M64, vs.2) :=
  ⟨by decide, by decide, scaled_offset_uniform.1 4 9 16 ⟨[], 0⟩ (by decide) (by decide)⟩

/-! ## C3: line count -/

theorem readRecords_length (ps64 : Nat) :
    ∀ n prevID prevOffset (s : Stream) ms (s' : Stream),
      readRecords ps64 n prevID prevOffset s = .ok (ms, s') → ms.length = n := by
  intro n
  induction n with
  | zero =>
      intro a b s ms s' h
      simp only [readRecords, Except.ok.injEq, Prod.mk.injEq] at h
      rw [← h.1]
      rfl
  | succ n ih =>
      intro a b s ms s' h
      simp only [readRecords] at h
      cases hr : readRecord ps64 a b s with
      | error e =>
          simp only [hr, bind, Except.bind] at h
          exact Except.noConfusion h
      | ok p =>
          obtain ⟨⟨id, off⟩, s1⟩ := p
          simp only [hr, bind, Except.bind] at h
          cases hs : readRecords ps64 n id off s1 with
          | error e =>
              simp only [hs, bind, Except.bind] at h
              exact Except.noConfusion h
          | ok q =>
              obtain ⟨rest, s2⟩ := q
              simp only [hs, bind, Except.bind, Except.ok.injEq, Prod.mk.injEq] at h
              rw [← h.1]
              simp [ih id off s1 rest s2 hs]

theorem read_file_ok_length (s : Stream) (ms : List (Nat × Nat))
    (header : header_t) (s1 : Stream)
    (hh : read_header s = .ok (header, s1)) (hm : read_file s = .ok ms) :
    ms.length = header.address_count := by
  unfold read_file at hm
  rw [hh] at hm
  simp only [bind, Except.bind] at hm
  split at hm
  · cases hr : readRecords (sext64 header.pointer_size) header.address_count 0 0 s1 with
    | error e =>
        rw [hr] at hm
        simp only [bind, Except.bind] at hm
        exact Except.noConfusion hm
    | ok p =>
        obtain ⟨ms', s2⟩ := p
        rw [hr] at hm
        simp only [bind, Except.bind, Except.ok.injEq] at hm
        rw [← hm]
        exact readRecords_length _ _ _ _ _ _ _ hr
  · exact Except.noConfusion hm

theorem dump_mappings_ok_iff (s : Stream) (lines : List String) :
    dump_mappings s = .ok lines ↔
      ∃ ms, read_file s = .ok ms ∧
        lines = (sortMappings ms).map fun m =>
          formatLine (dumpWidth (sortMappings ms)) m.1 m.2 := by
  unfold dump_mappings
  cases hf : read_file s with
  | error e =>
      simp only [bind, Except.bind]
      constructor
      · intro h
        exact Except.noConfusion h
      · rintro ⟨ms, hms, -⟩
        exact Except.noConfusion hms
  | ok ms =>
      simp only [bind, Except.bind, Except.ok.injEq]
      constructor
      · intro h
        exact ⟨ms, rfl, h.symm⟩
      · rintro ⟨ms', hms', hl⟩
        cases hms'
        exact hl.symm

theorem dump_mappings_error_iff (s : Stream) (e : Err) :
    dump_mappings s = .error e ↔ read_file s = .error e := by
  unfold dump_mappings
  cases hf : read_file s with
  | error e' =>
      simp only [bind, Except.bind]
      exact ⟨fun h => by cases h; rfl, fun h => by cases h; rfl⟩
  | ok ms =>
      simp only [bind, Except.bind]
      exact ⟨fun h => Except.noConfusion h, fun h => Except.noConfusion h⟩

/-- **C3.** For every input that decodes without error, the number of
emitted lines equals the header's `address_count` field exactly; and
when `address_count = 0` the decoder succeeds and the emitter produces
zero lines. -/
theorem emitted_line_count (s : Stream) (header : header_t) (s1 : Stream)
    (hh : read_header s = .ok (header, s1)) :
    (∀ lines, dump_mappings s = .ok lines → lines.length = header.address_count) ∧
    (header.address_count = 0 → dump_mappings s = .ok []) := by
  constructor
  · intro lines hd
    obtain ⟨ms, hms, hl⟩ := (dump_mappings_ok_iff s lines).mp hd
    have hperm : (sortMappings ms).length = ms.length :=
      (List.perm_insertionSort mapLe ms).length_eq
    rw [hl, List.length_map, hperm, read_file_ok_length s ms header s1 hh hms]
  · intro hzero
    have hf : read_file s = .ok [] := by
      unfold read_file
      rw [hh]
      simp only [bind, Except.bind, hzero]
      rw [if_pos (by norm_num)]
      rfl
    rw [dump_mappings_ok_iff]
    exact ⟨[], hf, rfl⟩

/-- Little-endian bytes of a 32-bit value (for building test inputs). -/
def u32le (v : Nat) : List Nat :=
  [v % 256, v / 256 % 256, v / 65536 % 256, v / 16777216 % 256]

/-- Byte layout of a header with zero version words and an empty name. -/
def headerBytes (format ps cnt : Nat) : List Nat :=
  u32le format ++ u32le 0 ++ u32le 0 ++ u32le 0 ++ u32le 0 ++ u32le 0 ++
    u32le ps ++ u32le cnt

/-- Witness for C3: an input with `address_count = 0` parses to a header
with count 0 and dumps zero lines. -/
theorem emitted_line_count_witness :
    read_header ⟨headerBytes 1 8 0, 0⟩ =
      .ok (⟨1, (0, 0, 0, 0), 8, 0⟩, ⟨headerBytes 1 8 0, 32⟩) ∧
    dump_mappings ⟨headerBytes 1 8 0, 0⟩ = .ok [] :=
  ⟨rfl, (emitted_line_count ⟨headerBytes 1 8 0, 0⟩ ⟨1, (0, 0, 0, 0), 8, 0⟩
    ⟨headerBytes 1 8 0, 32⟩ rfl).2 rfl⟩

/-! ## C4: sorted permutation -/

/-- **C4.** For every successfully decoded input, the emitted sequence
of (id, offset) pairs — `sortMappings ms`, of which the output lines are
the image — is a permutation of the decoded mappings (duplicates
preserved by permutation) whose ids are non-decreasing from the first
line to the last. -/
theorem emitted_pairs_sorted_permutation (s : Stream) (ms : List (Nat × Nat))
    (lines : List String) (hms : read_file s = .ok ms)
    (hd : dump_mappings s = .ok lines) :
    (sortMappings ms).Perm ms ∧
    List.Sorted mapLe (sortMappings ms) ∧
    lines = (sortMappings ms).map fun m =>
      formatLine (dumpWidth (sortMappings ms)) m.1 m.2 := by
  obtain ⟨ms', hms', hl⟩ := (dump_mappings_ok_iff s lines).mp hd
  rw [hms] at hms'
  cases hms'
  exact ⟨List.perm_insertionSort mapLe ms, List.sorted_insertionSort mapLe ms, hl⟩

/-- Witness for C4 at a concrete two-record input (ids arrive out of
order: 7 then 3) whose dump re-orders them. -/
theorem emitted_pairs_sorted_permutation_witness :
    read_file ⟨headerBytes 1 8 2 ++ [0x66, 7, 0, 2, 0, 0x66, 3, 0, 9, 0], 0⟩ =
      .ok [(7, 2), (3, 9)] ∧
    dump_mappings ⟨headerBytes 1 8 2 ++ [0x66, 7, 0, 2, 0, 0x66, 3, 0, 9, 0], 0⟩ =
      .ok ["3\t0000009", "7\t0000002"] ∧
    (sortMappings [(7, 2), (3, 9)]).Perm [(7, 2), (3, 9)] ∧
    List.Sorted mapLe (sortMappings [(7, 2), (3, 9)]) := by
  have h := emitted_pairs_sorted_permutation
    ⟨headerBytes 1 8 2 ++ [0x66, 7, 0, 2, 0, 0x66, 3, 0, 9, 0], 0⟩
    [(7, 2), (3, 9)] ["3\t0000009", "7\t0000002"] (by rfl) (by rfl)
  exact ⟨by rfl, by rfl, h.1, h.2.1⟩

/-! ## C5: emitter layout -/

theorem maxId_cons (m : Nat × Nat) (t : List (Nat × Nat)) :
    maxId (m :: t) = max m.1 (maxId t) := rfl

theorem le_maxId_of_mem (ms : List (Nat × Nat)) : ∀ m ∈ ms, m.1 ≤ maxId ms := by
  induction ms with
  | nil => intro m hm; cases hm
  | cons a t ih =>
      intro m hm
      rw [maxId_cons]
      rcases List.mem_cons.mp hm with rfl | hm'
      · exact Nat.le_max_left _ _
      · exact le_trans (ih m hm') (Nat.le_max_right _ _)

theorem sorted_getLast_eq_maxId :
    ∀ (l : List (Nat × Nat)) (hs : List.Sorted mapLe l) (h : l ≠ []),
      (l.getLast h).1 = maxId l := by
  intro l
  induction l with
  | nil => intro _ h; exact absurd rfl h
  | cons a t ih =>
      intro hs h
      cases t with
      | nil => simp [List.getLast, maxId_cons, maxId]
      | cons b t' =>
          have htail : List.Sorted mapLe (b :: t') := hs.of_cons
          have hab : mapLe a b := (List.sorted_cons.mp hs).1 b (by simp)
          have h1 : maxId (a :: b :: t') = max a.1 (maxId (b :: t')) := rfl
          rw [List.getLast_cons (by simp), ih htail (by simp), h1]
          have hb : b.1 ≤ maxId (b :: t') := le_maxId_of_mem _ b (by simp)
          exact (Nat.max_eq_right (le_trans hab hb)).symm

theorem dumpWidth_sorted (l : List (Nat × Nat)) (hs : List.Sorted mapLe l) :
    dumpWidth l = if l.isEmpty then 0 else decLen (maxId l) := by
  cases l with
  | nil => rfl
  | cons a t =>
      have hne : a :: t ≠ ([] : List (Nat × Nat)) := by simp
      have hmax := sorted_getLast_eq_maxId (a :: t) hs hne
      simp [dumpWidth, List.getLast?_eq_getLast _ hne, hmax]

/-- **C5.** For every successfully decoded input, the emitted lines are
exactly the spec's emitter (§4.5) applied to the sorted sequence: width
is the decimal digit length of the maximum id present (0 when empty),
each line being the right-justified decimal id, a tab, and the offset in
uppercase hexadecimal zero-padded to at least 7 digits — the hex field
is `max 7 h` characters wide where `h` is the number of hex digits. -/
theorem emitter_matches_spec :
    (∀ (s : Stream) ms lines, read_file s = .ok ms → dump_mappings s = .ok lines →
      lines = specEmit (sortMappings ms)) ∧
    (∀ off, (padLeft '0' 7 (hexDigitsU off)).length = max 7 (hexDigitsU off).length) := by
  constructor
  · intro s ms lines hms hd
    obtain ⟨ms', hms', hl⟩ := (dump_mappings_ok_iff s lines).mp hd
    rw [hms] at hms'
    cases hms'
    rw [hl]
    unfold specEmit
    rw [dumpWidth_sorted (sortMappings ms) (List.sorted_insertionSort mapLe ms)]
  · intro off
    simp only [padLeft, List.length_append, List.length_replicate]
    omega

/-- Witness for C5: a concrete dump (ids 12345 and 3, so width 5; one
offset needing 9 hex digits) matches the spec emitter. -/
theorem emitter_matches_spec_witness :
    dump_mappings
        ⟨headerBytes 1 8 2 ++
          [0x06, 57, 48, 0x89, 0x67, 0x45, 0x23, 0x01, 0, 0, 0,
           0x06, 3, 0, 1, 0, 0, 0, 0, 0, 0, 0], 0⟩ =
      .ok ["    3\t0000001", "12345\t123456789"] ∧
    ["    3\t0000001", "12345\t123456789"] =
      specEmit (sortMappings [(12345, 4886718345), (3, 1)]) := by
  refine ⟨by rfl, ?_⟩
  exact emitter_matches_spec.1
    ⟨headerBytes 1 8 2 ++
      [0x06, 57, 48, 0x89, 0x67, 0x45, 0x23, 0x01, 0, 0, 0,
       0x06, 3, 0, 1, 0, 0, 0, 0, 0, 0, 0], 0⟩
    [(12345, 4886718345), (3, 1)] ["    3\t0000001", "12345\t123456789"]
    (by rfl) (by rfl)

/-! ## C6: pointer_size = 0 -/

/-- **C6** (code behaviour at the claim's scenario).  With
`pointer_size = 0` in the header and a single record whose tag requests
pointer scaling (tag `0x91`: bit 3 of the high nibble set), the decoder
reaches the unguarded division `prevOffset / header.pointer_size` with a
zero divisor — undefined behaviour in C++, surfaced by the model as
`divisionByZeroUB`, not as any clean `DivisionFault` error; the
modelled process outcome is undefined (`none`). -/
theorem division_by_zero_unguarded :
    read_file ⟨headerBytes 1 0 1 ++ [0x91], 0⟩ = .error .divisionByZeroUB ∧
    wmain 2 ⟨headerBytes 1 0 1 ++ [0x91], 0⟩ = none :=
  ⟨by rfl, by rfl⟩

/-! ## C8: invalid format -/

/-- **C8.** For every input whose first 32-bit little-endian integer is
neither 1 nor 2, header decoding fails with `InvalidFormat` carrying the
signed value of the field, and the failure is independent of every byte
after the first four — no record byte is consumed or even inspected. -/
theorem invalid_format_rejected (b0 b1 b2 b3 : Nat) (rest : List Nat)
    (hf : ¬(leVal [b0, b1, b2, b3] = 1 ∨ leVal [b0, b1, b2, b3] = 2)) :
    read_header ⟨[b0, b1, b2, b3] ++ rest, 0⟩ =
      .error (.invalidFormat (toInt32 (leVal [b0, b1, b2, b3]))) ∧
    read_file ⟨[b0, b1, b2, b3] ++ rest, 0⟩ =
      .error (.invalidFormat (toInt32 (leVal [b0, b1, b2, b3]))) := by
  have htake : ((([b0, b1, b2, b3] ++ rest).drop 0).take 4) = [b0, b1, b2, b3] := by
    simp
  have hh : read_header ⟨[b0, b1, b2, b3] ++ rest, 0⟩ =
      .error (.invalidFormat (toInt32 (leVal [b0, b1, b2, b3]))) := by
    unfold read_header
    rw [readUInt_ok ⟨[b0, b1, b2, b3] ++ rest, 0⟩ 4 (by simp), htake]
    simp only [bind, Except.bind]
    rw [if_neg hf]
  refine ⟨hh, ?_⟩
  unfold read_file
  rw [hh]
  rfl

/-- Witness for C8: format 99 (with a spare byte after the field) is
rejected with `InvalidFormat 99`. -/
theorem invalid_format_rejected_witness :
    ¬(leVal [99, 0, 0, 0] = 1 ∨ leVal [99, 0, 0, 0] = 2) ∧
    read_file ⟨[99, 0, 0, 0] ++ [171], 0⟩ = .error (.invalidFormat 99) := by
  refine ⟨by decide, ?_⟩
  have h := (invalid_format_rejected 99 0 0 0 [171] (by decide)).2
  simpa using h

/-! ## C9: process outcome -/

/-- **C9.** For every run whose behaviour is defined — including a run
in which decoding and emission complete successfully — the process exit
status is `EXIT_FAILURE`; and when an error is raised, its message
(carrying the originating source-location context, per `errorMessage`)
is printed to standard output. -/
theorem exit_status_always_failure :
    (∀ argc (input : Stream) (r : RunResult), wmain argc input = some r →
      r.exitCode = EXIT_FAILURE) ∧
    (∀ (input : Stream) lines, dump_mappings input = .ok lines →
      wmain 2 input = some ⟨EXIT_FAILURE, [], lines⟩) ∧
    (∀ (input : Stream) (e : Err), dump_mappings input = .error e →
      e ≠ .divisionByZeroUB →
      wmain 2 input = some ⟨EXIT_FAILURE, [errorMessage e], []⟩) := by
  refine ⟨?_, ?_, ?_⟩
  · intro argc input r h
    unfold wmain at h
    split at h
    · cases hd : dump_mappings input with
      | ok lines => rw [hd] at h; cases h; rfl
      | error e =>
          rw [hd] at h
          cases e with
          | divisionByZeroUB => exact Option.noConfusion h
          | invalidFormat f => cases h; rfl
          | outOfBounds => cases h; rfl
          | unhandledTag site => cases h; rfl
          | lengthError => cases h; rfl
    · cases h; rfl
  · intro input lines hd
    unfold wmain
    rw [if_pos rfl, hd]
  · intro input e hd hne
    unfold wmain
    rw [if_pos rfl, hd]
    cases e with
    | divisionByZeroUB => exact absurd rfl hne
    | invalidFormat f => rfl
    | outOfBounds => rfl
    | unhandledTag site => rfl
    | lengthError => rfl

/-- Witness for C9: the empty input fails with `OutOfBounds`; the run
prints the message and still exits with `EXIT_FAILURE`, as does the
successful empty-report run from the C3 header. -/
theorem exit_status_always_failure_witness :
    dump_mappings ⟨[], 0⟩ = .error .outOfBounds ∧
    wmain 2 ⟨[], 0⟩ = some ⟨EXIT_FAILURE, [errorMessage .outOfBounds], []⟩ ∧
    wmain 2 ⟨headerBytes 1 8 0, 0⟩ = some ⟨EXIT_FAILURE, [], []⟩ := by
  refine ⟨by rfl, ?_, ?_⟩
  · exact exit_status_always_failure.2.2 ⟨[], 0⟩ .outOfBounds (by rfl) (by decide)
  · exact exit_status_always_failure.2.1 ⟨headerBytes 1 8 0, 0⟩ [] (by rfl)

/-! ## C10: which nibble can raise UnhandledTag -/

theorem readUInt_error (s : Stream) (n : Nat) (e : Err)
    (h : readUInt s n = .error e) : e = .outOfBounds := by
  unfold readUInt readBytes at h
  split at h
  · simp only [bind, Except.bind] at h
    exact Except.noConfusion h
  · simp only [bind, Except.bind, Except.error.injEq] at h
    exact h.symm

theorem read_id_error (lo prevID : Nat) (s : Stream) (e : Err)
    (h : read_id lo prevID s = .error e) :
    (e = .outOfBounds ∧ lo < 8) ∨ (e = .unhandledTag 123 ∧ 8 ≤ lo) := by
  match lo with
  | 0 => exact .inl ⟨readUInt_error s 8 e h, by omega⟩
  | 1 => exact Except.noConfusion h
  | 2 =>
      left
      refine ⟨?_, by omega⟩
      simp only [read_id] at h
      cases hu : readUInt s 1 with
      | error e' =>
          simp only [hu, bind, Except.bind, Except.error.injEq] at h
          rw [← h]
          exact readUInt_error s 1 e' hu
      | ok p =>
          obtain ⟨v, s'⟩ := p
          simp only [hu, bind, Except.bind] at h
          exact Except.noConfusion h
  | 3 =>
      left
      refine ⟨?_, by omega⟩
      simp only [read_id] at h
      cases hu : readUInt s 1 with
      | error e' =>
          simp only [hu, bind, Except.bind, Except.error.injEq] at h
          rw [← h]
          exact readUInt_error s 1 e' hu
      | ok p =>
          obtain ⟨v, s'⟩ := p
          simp only [hu, bind, Except.bind] at h
          exact Except.noConfusion h
  | 4 =>
      left
      refine ⟨?_, by omega⟩
      simp only [read_id] at h
      cases hu : readUInt s 2 with
      | error e' =>
          simp only [hu, bind, Except.bind, Except.error.injEq] at h
          rw [← h]
          exact readUInt_error s 2 e' hu
      | ok p =>
          obtain ⟨v, s'⟩ := p
          simp only [hu, bind, Except.bind] at h
          exact Except.noConfusion h
  | 5 =>
      left
      refine ⟨?_, by omega⟩
      simp only [read_id] at h
      cases hu : readUInt s 2 with
      | error e' =>
          simp only [hu, bind, Except.bind, Except.error.injEq] at h
          rw [← h]
          exact readUInt_error s 2 e' hu
      | ok p =>
          obtain ⟨v, s'⟩ := p
          simp only [hu, bind, Except.bind] at h
          exact Except.noConfusion h
  | 6 => exact .inl ⟨readUInt_error s 2 e h, by omega⟩
  | 7 => exact .inl ⟨readUInt_error s 4 e h, by omega⟩
  | n + 8 =>
      right
      cases h
      exact ⟨rfl, by omega⟩

theorem offset_switch_error (hi tmp : Nat) (s : Stream) (e : Err)
    (h : offset_switch hi tmp s = .error e) : e = .outOfBounds := by
  unfold offset_switch at h
  generalize hm : hi % 8 = m at h
  have hlt : m < 8 := hm ▸ Nat.mod_lt _ (by omega)
  match m with
  | 0 => exact readUInt_error s 8 e h
  | 1 => exact Except.noConfusion h
  | 2 =>
      cases hu : readUInt s 1 with
      | error e' =>
          simp only [hu, bind, Except.bind, Except.error.injEq] at h
          rw [← h]
          exact readUInt_error s 1 e' hu
      | ok p =>
          obtain ⟨v, s'⟩ := p
          simp only [hu, bind, Except.bind] at h
          exact Except.noConfusion h
  | 3 =>
      cases hu : readUInt s 1 with
      | error e' =>
          simp only [hu, bind, Except.bind, Except.error.injEq] at h
          rw [← h]
          exact readUInt_error s 1 e' hu
      | ok p =>
          obtain ⟨v, s'⟩ := p
          simp only [hu, bind, Except.bind] at h
          exact Except.noConfusion h
  | 4 =>
      cases hu : readUInt s 2 with
      | error e' =>
          simp only [hu, bind, Except.bind, Except.error.injEq] at h
          rw [← h]
          exact readUInt_error s 2 e' hu
      | ok p =>
          obtain ⟨v, s'⟩ := p
          simp only [hu, bind, Except.bind] at h
          exact Except.noConfusion h
  | 5 =>
      cases hu : readUInt s 2 with
      | error e' =>
          simp only [hu, bind, Except.bind, Except.error.injEq] at h
          rw [← h]
          exact readUInt_error s 2 e' hu
      | ok p =>
          obtain ⟨v, s'⟩ := p
          simp only [hu, bind, Except.bind] at h
          exact Except.noConfusion h
  | 6 => exact readUInt_error s 2 e h
  | 7 => exact readUInt_error s 4 e h
  | n + 8 => omega

theorem read_offset_error (ps64 hi prevOffset : Nat) (s : Stream) (e : Err)
    (h : read_offset ps64 hi prevOffset s = .error e) :
    e = .outOfBounds ∨ e = .divisionByZeroUB := by
  unfold read_offset at h
  split at h
  · cases h
    exact .inr rfl
  · cases ho : offset_switch hi
        (if hi / 8 % 2 = 1 then prevOffset / ps64 else prevOffset) s with
    | error e' =>
        simp only [ho, bind, Except.bind, Except.error.injEq] at h
        rw [← h]
        exact .inl (offset_switch_error _ _ _ _ ho)
    | ok p =>
        obtain ⟨v, s'⟩ := p
        simp only [ho, bind, Except.bind] at h
        split at h
        · exact Except.noConfusion h
        · exact Except.noConfusion h

theorem readUInt_one_inv (s : Stream) (v : Nat) (s' : Stream)
    (h : readUInt s 1 = .ok (v, s')) :
    s.pos < s.data.length ∧ v = s.data.getD s.pos 0 ∧ s' = ⟨s.data, s.pos + 1⟩ := by
  by_cases hlt : s.pos < s.data.length
  · rw [readUInt_one s hlt] at h
    cases h
    exact ⟨hlt, rfl, rfl⟩
  · rw [readUInt_oob s 1 (by omega)] at h
    exact Except.noConfusion h

theorem readRecord_unhandledTag (ps64 a b : Nat) (s : Stream) (site : Nat)
    (h : readRecord ps64 a b s = .error (.unhandledTag site)) :
    site = 123 ∧ 8 ≤ s.data.getD s.pos 0 % 16 := by
  unfold readRecord at h
  cases hu : readUInt s 1 with
  | error e' =>
      simp only [hu, bind, Except.bind, Except.error.injEq] at h
      rw [readUInt_error s 1 e' hu] at h
      exact Err.noConfusion h
  | ok p =>
      obtain ⟨tag, s1⟩ := p
      obtain ⟨hpos, htag, hs1⟩ := readUInt_one_inv s tag s1 hu
      simp only [hu, bind, Except.bind] at h
      cases hid : read_id (tag % 16) a s1 with
      | error e' =>
          simp only [hid, bind, Except.bind, Except.error.injEq] at h
          rw [h] at hid
          rcases read_id_error (tag % 16) a s1 _ hid with ⟨he, -⟩ | ⟨he, hlo⟩
          · exact absurd he (by simp)
          · cases he
            exact ⟨rfl, htag ▸ hlo⟩
      | ok p =>
          obtain ⟨id, s2⟩ := p
          simp only [hid, bind, Except.bind] at h
          cases hoff : read_offset ps64 (tag / 16) b s2 with
          | error e' =>
              simp only [hoff, bind, Except.bind, Except.error.injEq] at h
              rw [h] at hoff
              rcases read_offset_error ps64 (tag / 16) b s2 _ hoff with he | he
              · exact absurd he (by simp)
              · exact absurd he (by simp)
          | ok q =>
              obtain ⟨off, s3⟩ := q
              simp only [hoff, bind, Except.bind] at h
              exact Except.noConfusion h

/-- **C10.** The offset sub-mode value `hi & 7` always lies in 0–7, so
the offset decoder's `UnhandledTag` branch (`main.cpp:154`) is
unreachable: the offset dispatch can only fail with `OutOfBounds`, and
whenever a record decode raises `UnhandledTag` the raise site is the id
switch (`main.cpp:123`) and the tag's low nibble is in 8–15. -/
theorem unhandled_tag_only_from_id_nibble :
    (∀ hi tmp (s : Stream) (e : Err),
      offset_switch hi tmp s = .error e → e = .outOfBounds) ∧
    (∀ ps64 a b (s : Stream) site,
      readRecord ps64 a b s = .error (.unhandledTag site) →
      site = 123 ∧ 8 ≤ s.data.getD s.pos 0 % 16) :=
  ⟨offset_switch_error, readRecord_unhandledTag⟩

/-- Witness for C10: the record `[0x28]` (low nibble 8, high nibble 2)
fails with `UnhandledTag` from line 123, and the offset dispatch on an
exhausted stream fails with `OutOfBounds`. -/
theorem unhandled_tag_only_from_id_nibble_witness :
    readRecord 1 0 0 ⟨[0x28], 0⟩ = .error (.unhandledTag 123) ∧
    ((123 : Nat) = 123 ∧ 8 ≤ (Stream.mk [0x28] 0).data.getD 0 0 % 16) ∧
    offset_switch 2 0 ⟨[], 0⟩ = .error .outOfBounds ∧
    Err.outOfBounds = .outOfBounds := by
  refine ⟨by rfl, ?_, by rfl, ?_⟩
  · exact unhandled_tag_only_from_id_nibble.2 1 0 0 ⟨[0x28], 0⟩ 123 (by rfl)
  · exact unhandled_tag_only_from_id_nibble.1 2 0 ⟨[], 0⟩ .outOfBounds (by rfl)

/-! ## C7: truncated record stream -/

theorem read_id_oob (lo prevID : Nat) (s : Stream) (hlo : lo < 8)
    (hpos : s.pos ≤ s.data.length)
    (h : s.data.length < s.pos + modeBytes lo) :
    read_id lo prevID s = .error .outOfBounds := by
  match lo with
  | 0 => exact readUInt_oob s 8 (by simpa [modeBytes] using h)
  | 1 => exact absurd h (by simp [modeBytes]; omega)
  | 2 =>
      simp only [read_id]
      rw [readUInt_oob s 1 (by simpa [modeBytes] using h)]
      rfl
  | 3 =>
      simp only [read_id]
      rw [readUInt_oob s 1 (by simpa [modeBytes] using h)]
      rfl
  | 4 =>
      simp only [read_id]
      rw [readUInt_oob s 2 (by simpa [modeBytes] using h)]
      rfl
  | 5 =>
      simp only [read_id]
      rw [readUInt_oob s 2 (by simpa [modeBytes] using h)]
      rfl
  | 6 => exact readUInt_oob s 2 (by simpa [modeBytes] using h)
  | 7 => exact readUInt_oob s 4 (by simpa [modeBytes] using h)

theorem read_id_ok_pos (lo prevID : Nat) (s : Stream) (hlo : lo < 8)
    (h : s.pos + modeBytes lo ≤ s.data.length) :
    ∃ v, read_id lo prevID s = .ok (v, ⟨s.data, s.pos + modeBytes lo⟩) := by
  match lo with
  | 0 => exact ⟨_, readUInt_ok s 8 (by simpa [modeBytes] using h)⟩
  | 1 => exact ⟨(prevID + 1) % M64, rfl⟩
  | 2 =>
      refine ⟨(prevID + leVal ((s.data.drop s.pos).take 1)) % M64, ?_⟩
      simp only [read_id]
      rw [readUInt_ok s 1 (by simpa [modeBytes] using h)]
      rfl
  | 3 =>
      refine ⟨(prevID + M64 - leVal ((s.data.drop s.pos).take 1)) % M64, ?_⟩
      simp only [read_id]
      rw [readUInt_ok s 1 (by simpa [modeBytes] using h)]
      rfl
  | 4 =>
      refine ⟨(prevID + leVal ((s.data.drop s.pos).take 2)) % M64, ?_⟩
      simp only [read_id]
      rw [readUInt_ok s 2 (by simpa [modeBytes] using h)]
      rfl
  | 5 =>
      refine ⟨(prevID + M64 - leVal ((s.data.drop s.pos).take 2)) % M64, ?_⟩
      simp only [read_id]
      rw [readUInt_ok s 2 (by simpa [modeBytes] using h)]
      rfl
  | 6 => exact ⟨_, readUInt_ok s 2 (by simpa [modeBytes] using h)⟩
  | 7 => exact ⟨_, readUInt_ok s 4 (by simpa [modeBytes] using h)⟩

theorem offset_switch_oob (hi tmp : Nat) (s : Stream)
    (hpos : s.pos ≤ s.data.length)
    (h : s.data.length < s.pos + modeBytes (hi % 8)) :
    offset_switch hi tmp s = .error .outOfBounds := by
  unfold offset_switch
  generalize hm : hi % 8 = m at h ⊢
  have hlt : m < 8 := hm ▸ Nat.mod_lt _ (by omega)
  match m with
  | 0 => exact readUInt_oob s 8 (by simpa [modeBytes] using h)
  | 1 => exact absurd h (by simp [modeBytes]; omega)
  | 2 =>
      rw [readUInt_oob s 1 (by simpa [modeBytes] using h)]
      rfl
  | 3 =>
      rw [readUInt_oob s 1 (by simpa [modeBytes] using h)]
      rfl
  | 4 =>
      rw [readUInt_oob s 2 (by simpa [modeBytes] using h)]
      rfl
  | 5 =>
      rw [readUInt_oob s 2 (by simpa [modeBytes] using h)]
      rfl
  | 6 => exact readUInt_oob s 2 (by simpa [modeBytes] using h)
  | 7 => exact readUInt_oob s 4 (by simpa [modeBytes] using h)
  | n + 8 => omega

theorem read_offset_oob (ps64 hi prevOffset : Nat) (s : Stream)
    (hub : ¬(hi / 8 % 2 = 1 ∧ ps64 = 0))
    (hpos : s.pos ≤ s.data.length)
    (h : s.data.length < s.pos + modeBytes (hi % 8)) :
    read_offset ps64 hi prevOffset s = .error .outOfBounds := by
  unfold read_offset
  rw [if_neg hub,
    offset_switch_oob hi (if hi / 8 % 2 = 1 then prevOffset / ps64 else prevOffset)
      s hpos h]
  rfl

theorem record_truncation_oob (ps64 a b : Nat) (s : Stream)
    (hpos : s.pos < s.data.length)
    (hlo : s.data.getD s.pos 0 % 16 < 8)
    (hub : ¬(s.data.getD s.pos 0 / 16 / 8 % 2 = 1 ∧ ps64 = 0))
    (h : s.data.length < s.pos + recordBytes (s.data.getD s.pos 0)) :
    readRecord ps64 a b s = .error .outOfBounds := by
  unfold readRecord
  rw [readUInt_one s hpos]
  simp only [bind, Except.bind]
  rw [recordBytes] at h
  by_cases hid : s.data.length < (s.pos + 1) + modeBytes (s.data.getD s.pos 0 % 16)
  · rw [read_id_oob (s.data.getD s.pos 0 % 16) a ⟨s.data, s.pos + 1⟩ hlo
      (by simpa using hpos) (by simpa using hid)]
  · push_neg at hid
    obtain ⟨v, hv⟩ := read_id_ok_pos (s.data.getD s.pos 0 % 16) a
      ⟨s.data, s.pos + 1⟩ hlo (by simpa using hid)
    have hoff := read_offset_oob ps64 (s.data.getD s.pos 0 / 16) b
      ⟨s.data, s.pos + 1 + modeBytes (s.data.getD s.pos 0 % 16)⟩ hub
      (show s.pos + 1 + modeBytes (s.data.getD s.pos 0 % 16) ≤ s.data.length from hid)
      (show s.data.length <
          s.pos + 1 + modeBytes (s.data.getD s.pos 0 % 16) +
            modeBytes (s.data.getD s.pos 0 / 16 % 8) from by omega)
    simp only [hv, hoff]

/-- **C7.** A truncated record stream fails with `OutOfBounds` rather
than producing values from out-of-range bytes, and the whole run is
all-or-nothing: (1) a record whose tag selects more payload bytes than
remain (with a valid id nibble, and not hitting the unrelated
`pointer_size = 0` undefined division) decodes to `OutOfBounds`;
(2) the cursor itself refuses any read extending past the buffer; and
(3) the dump fails with exactly the decoder's error — no lines are
produced on any failure. -/
theorem truncated_stream_out_of_bounds :
    (∀ ps64 a b (s : Stream),
      s.pos < s.data.length →
      s.data.getD s.pos 0 % 16 < 8 →
      ¬(s.data.getD s.pos 0 / 16 / 8 % 2 = 1 ∧ ps64 = 0) →
      s.data.length < s.pos + recordBytes (s.data.getD s.pos 0) →
      readRecord ps64 a b s = .error .outOfBounds) ∧
    (∀ (s : Stream) (n : Nat), s.data.length < s.pos + n →
      readBytes s n = .error .outOfBounds) ∧
    (∀ (s : Stream) (e : Err), dump_mappings s = .error e ↔ read_file s = .error e) :=
  ⟨record_truncation_oob,
   fun s n h => by unfold readBytes; rw [if_neg (by omega)],
   dump_mappings_error_iff⟩

/-- Witness for C7: the single byte `0x02` is a record tag demanding one
id payload byte and eight offset bytes, none of which remain; decoding
it fails with `OutOfBounds`, as does the whole dump of a file truncated
right after such a tag. -/
theorem truncated_stream_out_of_bounds_witness :
    readRecord 8 0 0 ⟨[0x02], 0⟩ = .error .outOfBounds ∧
    readBytes ⟨[0x02], 1⟩ 1 = .error .outOfBounds ∧
    dump_mappings ⟨headerBytes 1 8 1 ++ [0x02], 0⟩ = .error .outOfBounds ∧
    read_file ⟨headerBytes 1 8 1 ++ [0x02], 0⟩ = .error .outOfBounds := by
  refine ⟨?_, ?_, ?_, by rfl⟩
  · exact truncated_stream_out_of_bounds.1 8 0 0 ⟨[0x02], 0⟩ (by decide) (by decide)
      (by decide) (by decide)
  · exact truncated_stream_out_of_bounds.2.1 ⟨[0x02], 1⟩ 1 (by decide)
  · exact (truncated_stream_out_of_bounds.2.2 ⟨headerBytes 1 8 1 ++ [0x02], 0⟩
      .outOfBounds).mpr (by rfl)

end AddressLib
